import Mathlib

/-!
Verification of the EETT antenna scraper's extraction and pagination core
(`eett_scraper.py`), shallowly embedded in Lean 4.

HTML is abstracted to the data the scraper actually inspects:
a table is the list of its rows, each row the list of its cells' stripped
texts; a parsed page ("soup") is the list of its tables together with the
optional pagination control.  Python exceptions (IndexError / KeyError /
requests.RequestException) are modelled as `none` of an `Option` result;
the paging `while True:` loop is given explicit fuel, with `none` meaning
the fuel ran out (never the program's own behaviour).
-/

/-- Python substring test: does the pattern list occur at the head of the list? -/
def startsWithList : List Char → List Char → Bool
  | [], _ => true
  | _ :: _, [] => false
  | c :: cs, d :: ds => c == d && startsWithList cs ds

/-- Occurrence of the pattern anywhere in the list (scans left to right). -/
def hasSubList (pat : List Char) : List Char → Bool
  | [] => startsWithList pat []
  | s@(_ :: rest) => startsWithList pat s || hasSubList pat rest

/-- Python's `pat in s` for strings: substring containment. -/
def strContains (s pat : String) : Bool :=
  hasSubList pat.toList s.toList

/-- The six semantic field names used as keys of the scraper's header map. -/
inductive HField where
  | position_code
  | sequence
  | category
  | company
  | address
  | municipality
deriving DecidableEq, Repr

/-- All six field names (used to enumerate the dictionary's possible keys). -/
def allHFields : List HField :=
  [.position_code, .sequence, .category, .company, .address, .municipality]

/-- The header map of `_map_table_headers`: a partial map from field name to
zero-based column index (Python dict with at most these six keys). -/
def HeaderMap : Type := HField → Option Nat

/-- The empty header map (`header_map = {}`). -/
def emptyHeaderMap : HeaderMap := fun _ => none

/-- Dictionary assignment `header_map[f] = i`. -/
def updateHM (hm : HeaderMap) (f : HField) (i : Nat) : HeaderMap :=
  fun g => if g = f then some i else hm g

/-- The if/elif chain of `_map_table_headers`, deciding which field (if any)
a header cell's text is assigned to.  Note the code checks the `sequence`
label LAST, after the `municipality` label. -/
def cellField (text : String) : Option HField :=
  if strContains text "Κωδ." && strContains text "θέσης" then some .position_code
  else if strContains text "Κατηγορία" then some .category
  else if strContains text "Εταιρία" then some .company
  else if strContains text "Διεύθυνση" then some .address
  else if strContains text "Δήμος" then some .municipality
  else if strContains text "Κωδ. Θέσης" then some .sequence
  else none

/-- One step of the header-mapping loop: process cell `text` at index `i`. -/
def headerAssign (hm : HeaderMap) (i : Nat) (text : String) : HeaderMap :=
  match cellField text with
  | some f => updateHM hm f i
  | none => hm

/-- The `for i, cell in enumerate(header_cells)` loop, counter threaded. -/
def mapHeadersFrom (i : Nat) (hm : HeaderMap) : List String → HeaderMap
  | [] => hm
  | t :: rest => mapHeadersFrom (i + 1) (headerAssign hm i t) rest

/-- `_map_table_headers`: build the header map of a header row's cell texts. -/
def mapTableHeaders (cells : List String) : HeaderMap :=
  mapHeadersFrom 0 emptyHeaderMap cells

/-- `required_headers` of `_validate_header_map`. -/
def requiredHeaders : List HField :=
  [.position_code, .company, .address, .municipality]

/-- `_validate_header_map`: `missing_headers` must be empty. -/
def validateHeaderMap (hm : HeaderMap) : Bool :=
  (requiredHeaders.filter (fun h => (hm h).isNone)).isEmpty

/-- `max(header_map.values())` — the values present in the map, folded with
`max` from 0 (agrees with Python's `max` whenever the map is nonempty,
which holds at the only call site, after validation). -/
def maxIdx (hm : HeaderMap) : Nat :=
  (allHFields.filterMap hm).foldl max 0

/-- One scraped installation, the dict built by `_extract_antenna_data`. -/
structure AntennaRecord where
  sequence : String
  position_code : String
  category : String
  company : String
  address : String
  municipality : String
deriving DecidableEq, Repr

/-- `cells[header_map[f]]` for a required field: `none` models the KeyError
(field absent) or IndexError (index past the row) the Python would raise. -/
def requiredCell (cells : List String) (v : Option Nat) : Option String :=
  match v with
  | some i => cells.get? i
  | none => none

/-- `cells[header_map.get(f, 0)] if f in header_map else ''` for an optional
field: absent field yields `''`; present field indexes the row (`none`
models the IndexError). -/
def optionalCell (cells : List String) (v : Option Nat) : Option String :=
  match v with
  | some i => cells.get? i
  | none => some ""

/-- `_extract_antenna_data`: build one record from a data row's cells; any
failing cell access makes the whole extraction fail (a Python exception). -/
def extractAntennaData (cells : List String) (hm : HeaderMap) : Option AntennaRecord :=
  match optionalCell cells (hm .sequence), requiredCell cells (hm .position_code),
        optionalCell cells (hm .category), requiredCell cells (hm .company),
        requiredCell cells (hm .address), requiredCell cells (hm .municipality) with
  | some s, some pc, some cat, some comp, some addr, some mun =>
      some ⟨s, pc, cat, comp, addr, mun⟩
  | _, _, _, _, _, _ => none

/-- The body of the data-row loop of `_parse_table_results`: a row is
processed only when its cell count exceeds `max(header_map.values())`;
otherwise it is skipped.  A failed extraction poisons the whole result. -/
def processRow (hm : HeaderMap) (acc : Option (List AntennaRecord)) (cells : List String) :
    Option (List AntennaRecord) :=
  match acc with
  | none => none
  | some l =>
    if cells.length > maxIdx hm then
      match extractAntennaData cells hm with
      | some a => some (l ++ [a])
      | none => none
    else some l

/-- `_parse_table_results`: fewer than two rows, or an invalid header map,
yields no records; otherwise each data row is processed in order. -/
def parseTableResults : List (List String) → Option (List AntennaRecord)
  | [] => some []
  | [_] => some []
  | headerRow :: dataRows =>
    if validateHeaderMap (mapTableHeaders headerRow) then
      dataRows.foldl (processRow (mapTableHeaders headerRow)) (some [])
    else some []

/-- `_parse_results`: scan the document's tables in order and return the
first table's records that are non-empty (`if antennas: return antennas`);
if every table yields an empty list, return the empty list. -/
def parseResults : List (List (List String)) → Option (List AntennaRecord)
  | [] => some []
  | t :: rest =>
    match parseTableResults t with
    | none => none
    | some antennas => if antennas.isEmpty then parseResults rest else some antennas

/-- A link inside a pagination item: its visible text and `onclick` attribute
(`a.get_text(strip=True)` and `a.get('onclick', '')`). -/
structure PagLink where
  text : String
  onclick : String
deriving DecidableEq, Repr

/-- One `<li>` of the pagination control: `title` attribute, `class` list and
the first contained `<a>` (if any). -/
structure PagItem where
  title : String
  classes : List String
  link : Option PagLink
deriving DecidableEq, Repr

/-- The pagination control (`<ul class="pagination">`): its `<li>` items. -/
structure Pagination where
  items : List PagItem
deriving DecidableEq, Repr

/-- Python `text.isdigit()`: non-empty and every character a digit. -/
def pyIsDigit (s : String) : Bool :=
  !s.toList.isEmpty && s.toList.all (fun c => c.isDigit)

/-- `int(text)` for an all-digit string. -/
def digitsVal (ds : List Char) : Nat :=
  ds.foldl (fun a c => a * 10 + (c.toNat - 48)) 0

/-- The literal part of the regex `startPage\.value='?(\d+)'?`. -/
def spLiteral : List Char := "startPage.value=".toList

/-- Drop one optional leading quote character (the `'?` of the regex). -/
def dropQuote : List Char → List Char
  | [] => []
  | c :: r => if c = Char.ofNat 39 then r else c :: r

/-- Try the regex `startPage\.value='?(\d+)'?` anchored at this position:
the literal, an optional quote, then a maximal non-empty digit run, whose
value is the captured group. -/
def startPageAt (l : List Char) : Option Nat :=
  if startsWithList spLiteral l then
    match (dropQuote (l.drop spLiteral.length)).takeWhile Char.isDigit with
    | [] => none
    | ds => some (digitsVal ds)
  else none

/-- `re.search` of that pattern over the `onclick` text: first position at
which the pattern matches wins. -/
def startPageSearch : List Char → Option Nat
  | [] => none
  | c :: rest =>
    match startPageAt (c :: rest) with
    | some v => some v
    | none => startPageSearch rest

/-- The item loop of `_has_next_page`: return true at the first item showing
any of the three next-page signals, false once the items are exhausted. -/
def hasNextScan (n : Nat) : List PagItem → Bool
  | [] => false
  | li :: rest =>
    if (strContains li.title "Επόμενη" || strContains li.title "Next")
        && !(li.classes.contains "disabled") then true
    else
      match li.link with
      | none => hasNextScan n rest
      | some a =>
        if pyIsDigit a.text && decide (digitsVal a.text.toList > n) then true
        else
          match startPageSearch a.onclick.toList with
          | some m => if m > n then true else hasNextScan n rest
          | none => hasNextScan n rest

/-- `_has_next_page`: no pagination control means no next page; otherwise
scan the control's items. -/
def hasNextPage (pag : Option Pagination) (n : Nat) : Bool :=
  match pag with
  | none => false
  | some p => hasNextScan n p.items

/-- A parsed response page, holding exactly what `_scrape_all_pages`
inspects: the document's tables and its pagination control (if any). -/
structure Soup where
  tables : List (List (List String))
  pagination : Option Pagination
deriving DecidableEq, Repr

/-- Accumulated observable state of one scrape: the records gathered, the
number of page requests issued and the number of politeness delays slept. -/
structure ScrapeState where
  records : List AntennaRecord
  requests : Nat
  sleeps : Nat
deriving DecidableEq, Repr

/-- `if max_pages and page_num > max_pages`: Python truthiness makes a
configured bound of 0 behave exactly like no bound at all. -/
def boundHit (mp : Option Int) (pageNum : Nat) : Bool :=
  match mp with
  | none => false
  | some m => decide (m ≠ 0) && decide ((pageNum : Int) > m)

/-- The `while True:` loop of `_scrape_all_pages`, fuel-indexed.  `fetch`
models `_make_search_request` for each page number (`none` is a transport
failure, already caught and logged inside that helper).  The result is
`none` only when the fuel runs out or a parse raises (proved impossible
below); every behaviour of the code itself is a `some`. -/
def scrapeLoop (fetch : Nat → Option Soup) (mp : Option Int) :
    Nat → Nat → ScrapeState → Option ScrapeState
  | 0, _, _ => none
  | fuel + 1, pageNum, st =>
    if boundHit mp pageNum then some st
    else
      match fetch pageNum with
      | none => some ⟨st.records, st.requests + 1, st.sleeps⟩
      | some soup =>
        match parseResults soup.tables with
        | none => none
        | some antennas =>
          if antennas.isEmpty then some ⟨st.records, st.requests + 1, st.sleeps⟩
          else if hasNextPage soup.pagination pageNum then
            scrapeLoop fetch mp fuel (pageNum + 1)
              ⟨st.records ++ antennas, st.requests + 1, st.sleeps + 1⟩
          else some ⟨st.records ++ antennas, st.requests + 1, st.sleeps⟩

/-- `_scrape_all_pages`: run the paging loop from page 1 and empty state. -/
def scrapeAllPages (fetch : Nat → Option Soup) (mp : Option Int) (fuel : Nat) :
    Option ScrapeState :=
  scrapeLoop fetch mp fuel 1 ⟨[], 0, 0⟩

/-- The first of the three next-page signals of `_has_next_page`: the item's
`title` holds a next-page term and the item is not marked disabled. -/
def nextTitleSignal (li : PagItem) : Bool :=
  (strContains li.title "Επόμενη" || strContains li.title "Next")
    && !(li.classes.contains "disabled")

/-- The second signal: the item's link shows a page number above the
current page. -/
def pageNumberSignal (n : Nat) (li : PagItem) : Bool :=
  match li.link with
  | none => false
  | some a => pyIsDigit a.text && decide (digitsVal a.text.toList > n)

/-- The third signal: the link's `onclick` assigns `startPage` a number
above the current page. -/
def onclickSignal (n : Nat) (li : PagItem) : Bool :=
  match li.link with
  | none => false
  | some a =>
    match startPageSearch a.onclick.toList with
    | some m => decide (m > n)
    | none => false

/-- Disjunction of the three next-page signals for one pagination item. -/
def liSignal (n : Nat) (li : PagItem) : Bool :=
  nextTitleSignal li || pageNumberSignal n li || onclickSignal n li

/-- The locator's acceptance condition, spelled out: the returned record
list is either empty with every table parsing to the empty list, or is the
non-empty parse of the first table that parses to a non-empty list. -/
def LocatorSpec (tables : List (List (List String))) (r : List AntennaRecord) : Prop :=
  (r = [] ∧ ∀ t ∈ tables, parseTableResults t = some []) ∨
  ∃ pre tb post, tables = pre ++ tb :: post ∧
    (∀ u ∈ pre, parseTableResults u = some []) ∧
    parseTableResults tb = some r ∧ r ≠ []

/-- A header row carrying the four required Greek labels, one per cell. -/
def hdrA : List String := ["Κωδ. θέσης", "Εταιρία", "Διεύθυνση", "Δήμος"]

/-- A results table: the header row above and one well-formed data row. -/
def goodTable : List (List String) := [hdrA, ["a", "b", "c", "d"]]

/-- A table with a valid header row but a single too-short data row. -/
def tableShort : List (List String) := [hdrA, ["x"]]

/-- The record extracted from `goodTable`'s data row. -/
def recA : AntennaRecord := ⟨"", "a", "", "b", "c", "d"⟩

/-- A page whose only table is `goodTable` and with no pagination control. -/
def soupA : Soup := ⟨[goodTable], none⟩

/-- A server for which every page request returns `soupA`. -/
def fetchA : Nat → Option Soup := fun _ => some soupA

/-- A pagination control whose single item links to page number 2. -/
def pagB : Pagination := ⟨[⟨"", [], some ⟨"2", ""⟩⟩]⟩

/-- A page with `goodTable` and a pagination link to page 2. -/
def soupB : Soup := ⟨[goodTable], some pagB⟩

/-- A page with no tables at all (zero records). -/
def soupEmpty : Soup := ⟨[], none⟩

/-- A server: page 1 has records and advertises page 2; page 2 is empty. -/
def fetchB : Nat → Option Soup := fun k => if k = 1 then some soupB else some soupEmpty

/-- The pages of `fetchB`, as a total function. -/
def soupsB : Nat → Soup := fun k => if k = 1 then soupB else soupEmpty

/-- The records of `fetchB`'s pages. -/
def recsB : Nat → List AntennaRecord := fun k => if k = 1 then [recA] else []

/-- A server: page 1 has records and advertises page 2; fetching page 2
fails with a transport error. -/
def fetchC : Nat → Option Soup := fun k => if k = 1 then some soupB else none

/-- A server: page 1 has records and advertises page 2; page 2 has records
but its document has no pagination control. -/
def fetchD : Nat → Option Soup := fun k => if k = 1 then some soupB else some soupA

/-- The pages of `fetchD`, as a total function. -/
def soupsD : Nat → Soup := fun k => if k = 1 then soupB else soupA

/-- The records of `fetchD`'s pages: one `recA` on every page. -/
def recsD : Nat → List AntennaRecord := fun _ => [recA]

/-- The per-field matching condition of each header rule, isolated from the
chain so the evaluation order can be stated explicitly. -/
def ruleMatches : HField → String → Bool
  | .position_code, t => strContains t "Κωδ." && strContains t "θέσης"
  | .category, t => strContains t "Κατηγορία"
  | .company, t => strContains t "Εταιρία"
  | .address, t => strContains t "Διεύθυνση"
  | .municipality, t => strContains t "Δήμος"
  | .sequence, t => strContains t "Κωδ. Θέσης"

/-- The order in which `_map_table_headers` actually evaluates its rules:
the `sequence` rule comes last, after `municipality`. -/
def codeRuleOrder : List HField :=
  [.position_code, .category, .company, .address, .municipality, .sequence]

/-- The priority order claimed by the specification, with the `sequence`
rule second: this definition follows the spec's words, for comparison with
`cellField`, which follows the code. -/
def cellFieldSpecOrder (text : String) : Option HField :=
  if strContains text "Κωδ." && strContains text "θέσης" then some .position_code
  else if strContains text "Κωδ. Θέσης" then some .sequence
  else if strContains text "Κατηγορία" then some .category
  else if strContains text "Εταιρία" then some .company
  else if strContains text "Διεύθυνση" then some .address
  else if strContains text "Δήμος" then some .municipality
  else none

lemma foldl_max_init_le : ∀ (l : List Nat) (a : Nat), a ≤ l.foldl max a
  | [], a => le_refl a
  | x :: xs, a => le_trans (le_max_left a x) (foldl_max_init_le xs (max a x))

lemma le_foldl_max : ∀ (l : List Nat) (a x : Nat), x ∈ l → x ≤ l.foldl max a
  | [], _, _, h => absurd h (List.not_mem_nil _)
  | y :: ys, a, x, h => by
    cases h with
    | head => exact le_trans (le_max_right a y) (foldl_max_init_le ys (max a y))
    | tail _ h' => exact le_foldl_max ys (max a y) x h'

lemma val_le_maxIdx (hm : HeaderMap) (f : HField) (i : Nat) (h : hm f = some i) :
    i ≤ maxIdx hm := by
  have hf : f ∈ allHFields := by cases f <;> simp [allHFields]
  exact le_foldl_max _ 0 i (List.mem_filterMap.mpr ⟨f, hf, h⟩)

lemma validate_iff (hm : HeaderMap) :
    validateHeaderMap hm = true ↔
      ((hm .position_code).isSome ∧ (hm .company).isSome ∧
        (hm .address).isSome ∧ (hm .municipality).isSome) := by
  cases h1 : hm .position_code <;> cases h2 : hm .company <;>
    cases h3 : hm .address <;> cases h4 : hm .municipality <;>
    simp [validateHeaderMap, requiredHeaders, List.filter, h1, h2, h3, h4]

lemma requiredCell_some (cells : List String) (v : Option Nat) (hv : v.isSome)
    (hb : ∀ i, v = some i → i < cells.length) :
    ∃ s, requiredCell cells v = some s := by
  cases h : v with
  | none => rw [h] at hv; exact absurd hv (by simp)
  | some i =>
    have hi : i < cells.length := hb i h
    cases hg : cells.get? i with
    | none => exact absurd (List.get?_eq_none.mp hg) (Nat.not_le.mpr hi)
    | some s => exact ⟨s, hg⟩

lemma optionalCell_some (cells : List String) (v : Option Nat)
    (hb : ∀ i, v = some i → i < cells.length) :
    ∃ s, optionalCell cells v = some s := by
  cases h : v with
  | none => exact ⟨"", by simp [optionalCell]⟩
  | some i =>
    have hi : i < cells.length := hb i h
    cases hg : cells.get? i with
    | none => exact absurd (List.get?_eq_none.mp hg) (Nat.not_le.mpr hi)
    | some s => exact ⟨s, hg⟩

lemma extract_some (hm : HeaderMap) (cells : List String)
    (hv : validateHeaderMap hm = true) (hlen : maxIdx hm < cells.length) :
    ∃ a, extractAntennaData cells hm = some a := by
  obtain ⟨hpc, hco, had, hmu⟩ := (validate_iff hm).mp hv
  have hb : ∀ (f : HField), ∀ i, hm f = some i → i < cells.length :=
    fun f i h => lt_of_le_of_lt (val_le_maxIdx hm f i h) hlen
  obtain ⟨s1, e1⟩ := optionalCell_some cells (hm .sequence) (hb .sequence)
  obtain ⟨s2, e2⟩ := requiredCell_some cells (hm .position_code) hpc (hb .position_code)
  obtain ⟨s3, e3⟩ := optionalCell_some cells (hm .category) (hb .category)
  obtain ⟨s4, e4⟩ := requiredCell_some cells (hm .company) hco (hb .company)
  obtain ⟨s5, e5⟩ := requiredCell_some cells (hm .address) had (hb .address)
  obtain ⟨s6, e6⟩ := requiredCell_some cells (hm .municipality) hmu (hb .municipality)
  exact ⟨⟨s1, s2, s3, s4, s5, s6⟩, by simp [extractAntennaData, e1, e2, e3, e4, e5, e6]⟩

lemma foldl_processRow_some (hm : HeaderMap) (hv : validateHeaderMap hm = true) :
    ∀ (rows : List (List String)) (l : List AntennaRecord),
      ∃ l', rows.foldl (processRow hm) (some l) = some l'
  | [], l => ⟨l, rfl⟩
  | cells :: rest, l => by
    by_cases hlen : cells.length > maxIdx hm
    · obtain ⟨a, ha⟩ := extract_some hm cells hv hlen
      have hstep : processRow hm (some l) cells = some (l ++ [a]) := by
        simp [processRow, hlen, ha]
      rw [List.foldl_cons, hstep]
      exact foldl_processRow_some hm hv rest (l ++ [a])
    · have hstep : processRow hm (some l) cells = some l := by
        simp [processRow, hlen]
      rw [List.foldl_cons, hstep]
      exact foldl_processRow_some hm hv rest l

lemma parseTableResults_isSome : ∀ t, (parseTableResults t).isSome = true
  | [] => rfl
  | [_] => rfl
  | h :: r :: rs => by
    simp only [parseTableResults]
    by_cases hv : validateHeaderMap (mapTableHeaders h) = true
    · obtain ⟨l', hl⟩ := foldl_processRow_some _ hv (r :: rs) []
      simp [hv, hl]
    · simp [hv]

lemma parseResults_isSome : ∀ ts, (parseResults ts).isSome = true
  | [] => rfl
  | t :: rest => by
    simp only [parseResults]
    obtain ⟨l, hl⟩ := Option.isSome_iff_exists.mp (parseTableResults_isSome t)
    rw [hl]
    by_cases he : l.isEmpty = true
    · simp only [he, if_true]
      exact parseResults_isSome rest
    · simp [he]

lemma mapHeadersFrom_append : ∀ (xs ys : List String) (i : Nat) (hm : HeaderMap),
    mapHeadersFrom i hm (xs ++ ys) = mapHeadersFrom (i + xs.length) (mapHeadersFrom i hm xs) ys
  | [], ys, i, hm => by simp [mapHeadersFrom]
  | x :: xs, ys, i, hm => by
    simp only [List.cons_append, mapHeadersFrom, List.append_eq]
    rw [mapHeadersFrom_append xs ys (i + 1) (headerAssign hm i x)]
    have h : (i + 1) + xs.length = i + (x :: xs).length := by
      simp only [List.length_cons]
      omega
    rw [h]

lemma mapHeadersFrom_frame : ∀ (l : List String) (i : Nat) (hm : HeaderMap) (f : HField),
    (∀ u ∈ l, cellField u ≠ some f) → mapHeadersFrom i hm l f = hm f
  | [], _, _, _, _ => rfl
  | t :: rest, i, hm, f, h => by
    simp only [mapHeadersFrom]
    rw [mapHeadersFrom_frame rest (i + 1) (headerAssign hm i t) f
      (fun u hu => h u (List.mem_cons_of_mem t hu))]
    unfold headerAssign
    cases hc : cellField t with
    | none => rfl
    | some g =>
      have hgf : g ≠ f := fun he => h t (List.mem_cons_self t rest) (by rw [hc, he])
      exact if_neg (Ne.symm hgf)

/-- C10: when several header cells match the rule of the same field, the
header map keeps the column index of the LAST matching cell: a later
dictionary assignment in `_map_table_headers` overwrites an earlier one,
so a field need not map to its first matching cell. -/
theorem header_map_last_match_wins (pre : List String) (t : String) (post : List String)
    (f : HField) (ht : cellField t = some f) (hpost : ∀ u ∈ post, cellField u ≠ some f) :
    mapTableHeaders (pre ++ t :: post) f = some pre.length := by
  unfold mapTableHeaders
  rw [mapHeadersFrom_append pre (t :: post) 0 emptyHeaderMap]
  simp only [mapHeadersFrom, Nat.zero_add]
  rw [mapHeadersFrom_frame post (pre.length + 1) _ f hpost]
  unfold headerAssign
  rw [ht]
  exact if_pos rfl

/-- Witness for C10: two cells both match the municipality rule and the
field is mapped to the second (index 1), not the first. -/
theorem header_map_last_match_wins_witness :
    mapTableHeaders ["Δήμος Α", "Δήμος Β"] HField.municipality = some 1 :=
  header_map_last_match_wins ["Δήμος Α"] "Δήμος Β" [] HField.municipality (by decide)
    (fun u hu => absurd hu (List.not_mem_nil u))

/-- C2, counterexample: the cell text "Κωδ. Θέσης Δήμος" matches the
`sequence` rule and the (per the claim, later) `municipality` rule, yet the
code assigns it `municipality`, because the code in fact evaluates the
`sequence` rule last; the claimed priority order assigns `sequence`. -/
theorem header_rule_order_counterexample :
    cellField "Κωδ. Θέσης Δήμος" = some HField.municipality ∧
    cellFieldSpecOrder "Κωδ. Θέσης Δήμος" = some HField.sequence ∧
    HField.municipality ≠ HField.sequence :=
  ⟨by decide, by decide, by decide⟩

/-- C2, amended: `_map_table_headers` evaluates its matching rules per cell
with first match winning (each cell is assigned at most one field), but in
the order position_code, category, company, address, municipality,
sequence — the `sequence` rule comes LAST, so a cell matching both the
sequence rule and one of the four later-claimed rules is assigned the
other field, not `sequence`. -/
theorem header_rules_code_order (t : String) :
    cellField t = codeRuleOrder.find? (fun f => ruleMatches f t) := by
  simp only [cellField, codeRuleOrder, List.find?, ruleMatches]
  cases strContains t "Κωδ." && strContains t "θέσης"
  case true => simp
  case false =>
    cases strContains t "Κατηγορία"
    case true => simp
    case false =>
      cases strContains t "Εταιρία"
      case true => simp
      case false =>
        cases strContains t "Διεύθυνση"
        case true => simp
        case false =>
          cases strContains t "Δήμος"
          case true => simp
          case false =>
            cases strContains t "Κωδ. Θέσης" <;> simp

/-- C3: a header map is valid iff all four of position_code, company,
address, municipality are present; overriding the `sequence` and `category`
entries (to present or absent alike) never changes validity; and a table
whose header row yields an invalid map contributes no records. -/
theorem header_map_validity :
    (∀ hm : HeaderMap, validateHeaderMap hm = true ↔
      ((hm .position_code).isSome ∧ (hm .company).isSome ∧
        (hm .address).isSome ∧ (hm .municipality).isSome)) ∧
    (∀ (hm : HeaderMap) (v w : Option Nat),
      validateHeaderMap
        (fun g => if g = HField.sequence then v else if g = HField.category then w else hm g)
        = validateHeaderMap hm) ∧
    (∀ (headerRow : List String) (dataRows : List (List String)),
      validateHeaderMap (mapTableHeaders headerRow) = false →
      parseTableResults (headerRow :: dataRows) = some []) := by
  refine ⟨validate_iff, ?_, ?_⟩
  · intro hm v w
    simp [validateHeaderMap, requiredHeaders, List.filter]
  · intro headerRow dataRows hv
    cases dataRows with
    | nil => rfl
    | cons r rs => simp [parseTableResults, hv]

/-- Witness for C3: a header row with no recognized label yields an invalid
map, and the table built from it contributes no records. -/
theorem header_map_validity_witness :
    validateHeaderMap (mapTableHeaders ["x"]) = false ∧
    parseTableResults [["x"], ["a"]] = some [] :=
  ⟨by decide, header_map_validity.2.2 ["x"] [["a"]] (by decide)⟩

/-- C4: with a valid header map, a data row whose cell count does not
exceed the largest column index in the map (optional fields included) is
skipped and produces no record, and a longer row has every cell access of
`_extract_antenna_data` in bounds, so extraction succeeds and never
indexes out of bounds. -/
theorem row_extraction_in_bounds (hm : HeaderMap) (cells : List String)
    (l : List AntennaRecord) (hv : validateHeaderMap hm = true) :
    (cells.length ≤ maxIdx hm → processRow hm (some l) cells = some l) ∧
    (maxIdx hm < cells.length →
      ∃ a, extractAntennaData cells hm = some a ∧
        processRow hm (some l) cells = some (l ++ [a])) := by
  constructor
  · intro hlen
    have hn : ¬ (cells.length > maxIdx hm) := Nat.not_lt.mpr hlen
    simp [processRow, hn]
  · intro hlen
    obtain ⟨a, ha⟩ := extract_some hm cells hv hlen
    exact ⟨a, ha, by simp [processRow, hlen, ha]⟩

/-- Witness for C4: under `hdrA`'s valid header map (largest index 3) a
1-cell row is skipped without any out-of-bounds access. -/
theorem row_extraction_in_bounds_witness :
    validateHeaderMap (mapTableHeaders hdrA) = true ∧
    processRow (mapTableHeaders hdrA) (some []) ["x"] = some [] :=
  ⟨by decide, (row_extraction_in_bounds (mapTableHeaders hdrA) ["x"] [] (by decide)).1 (by decide)⟩

/-- C5, counterexample: `tableShort` is the FIRST table of the document and
has a valid header map, but its only data row is too short, so it parses
to zero records; the code then moves on and returns the records of the
SECOND table, not `tableShort`'s empty result as the claim requires. -/
theorem table_locator_counterexample :
    validateHeaderMap (mapTableHeaders hdrA) = true ∧
    parseTableResults tableShort = some [] ∧
    parseResults [tableShort, goodTable] = some [recA] ∧
    ([recA] : List AntennaRecord) ≠ [] :=
  ⟨by decide, by decide, by decide, by decide⟩

/-- C5, amended: `_parse_results` scans tables in document order and
returns the records of the first table that parses to a NON-EMPTY record
list; a table with a valid header map but zero extracted records is
skipped like an invalid one, and if every table parses to an empty list
the empty list is returned. -/
theorem table_locator_first_nonempty :
    ∀ (tables : List (List (List String))) (r : List AntennaRecord),
      parseResults tables = some r → LocatorSpec tables r
  | [], r, h => by
    have hr : r = [] := by simpa [parseResults] using h.symm
    exact Or.inl ⟨hr, fun t ht => absurd ht (List.not_mem_nil t)⟩
  | t :: rest, r, h => by
    simp only [parseResults] at h
    cases hp : parseTableResults t with
    | none =>
      rw [hp] at h
      exact absurd (show (none : Option (List AntennaRecord)) = some r from h) (by simp)
    | some antennas =>
      rw [hp] at h
      have h : (if antennas.isEmpty = true then parseResults rest else some antennas)
          = some r := h
      by_cases he : antennas.isEmpty = true
      · have hanil : antennas = [] := List.isEmpty_iff.mp he
        rw [if_pos he] at h
        cases table_locator_first_nonempty rest r h with
        | inl hl =>
          refine Or.inl ⟨hl.1, fun u hu => ?_⟩
          cases hu with
          | head => rw [hp, hanil]
          | tail _ hu' => exact hl.2 u hu'
        | inr hr =>
          obtain ⟨pre, tb, post, heq, hpre, htb, hne⟩ := hr
          refine Or.inr ⟨t :: pre, tb, post, by rw [heq, List.cons_append], ?_, htb, hne⟩
          intro u hu
          cases hu with
          | head => rw [hp, hanil]
          | tail _ hu' => exact hpre u hu'
      · rw [if_neg he] at h
        have har : antennas = r := Option.some.inj h
        refine Or.inr ⟨[], t, rest, rfl, fun u hu => absurd hu (List.not_mem_nil u), ?_, ?_⟩
        · rw [hp, har]
        · rw [← har]
          exact fun hn => he (by rw [hn]; rfl)

/-- Witness for C5 (amended): the skipped valid-but-empty first table. -/
theorem table_locator_first_nonempty_witness :
    parseResults [tableShort, goodTable] = some [recA] ∧
    LocatorSpec [tableShort, goodTable] [recA] :=
  ⟨by decide, table_locator_first_nonempty [tableShort, goodTable] [recA] (by decide)⟩

lemma hasNextScan_eq_any (n : Nat) : ∀ l : List PagItem, hasNextScan n l = l.any (liSignal n)
  | [] => rfl
  | li :: rest => by
    rw [List.any_cons, ← hasNextScan_eq_any n rest]
    obtain ⟨title, classes, link⟩ := li
    cases link with
    | none =>
      simp only [hasNextScan, liSignal, nextTitleSignal, pageNumberSignal, onclickSignal]
      cases (strContains title "Επόμενη" || strContains title "Next")
          && !(classes.contains "disabled") <;> simp
    | some a =>
      simp only [hasNextScan, liSignal, nextTitleSignal, pageNumberSignal, onclickSignal]
      cases (strContains title "Επόμενη" || strContains title "Next")
          && !(classes.contains "disabled")
      case true => simp
      case false =>
        cases pyIsDigit a.text && decide (digitsVal a.text.toList > n)
        case true => simp
        case false =>
          cases startPageSearch a.onclick.toList with
          | none => simp
          | some m => by_cases h4 : m > n <;> simp [h4]

/-- C6: `_has_next_page` reports no next page when the pagination control
is absent; when present, it reports a next page iff some item of the
control satisfies at least one of the three signals (enabled next-title,
link text a page number above the current page, onclick startPage
assignment above the current page), and reports false after scanning all
items with no match. -/
theorem pagination_detector_signals :
    (∀ n, hasNextPage none n = false) ∧
    (∀ (p : Pagination) (n : Nat), hasNextPage (some p) n = true ↔
      ∃ li ∈ p.items,
        (nextTitleSignal li || pageNumberSignal n li || onclickSignal n li) = true) := by
  refine ⟨fun _ => rfl, fun p n => ?_⟩
  have hr : hasNextPage (some p) n = hasNextScan n p.items := rfl
  rw [hr, hasNextScan_eq_any]
  exact List.any_eq_true

/-- Witness for C6: applied to an absent pagination control. -/
theorem pagination_detector_signals_witness : hasNextPage none 5 = false :=
  pagination_detector_signals.1 5

lemma boundHit_false_le (m : Int) (pageNum : Nat) (hm1 : 1 ≤ m)
    (hb : boundHit (some m) pageNum = false) : (pageNum : Int) ≤ m := by
  by_contra hgt
  have h1 : m ≠ 0 := by omega
  have h2 : (pageNum : Int) > m := by omega
  simp [boundHit, h1, h2] at hb

lemma scrapeLoop_eq_bound (fetch : Nat → Option Soup) (mp : Option Int) (f p : Nat)
    (st : ScrapeState) (hb : boundHit mp p = true) :
    scrapeLoop fetch mp (f + 1) p st = some st := by
  simp [scrapeLoop, hb]

lemma scrapeLoop_eq_fail (fetch : Nat → Option Soup) (mp : Option Int) (f p : Nat)
    (st : ScrapeState) (hb : boundHit mp p = false) (hf : fetch p = none) :
    scrapeLoop fetch mp (f + 1) p st = some ⟨st.records, st.requests + 1, st.sleeps⟩ := by
  simp [scrapeLoop, hb, hf]

lemma scrapeLoop_eq_empty (fetch : Nat → Option Soup) (mp : Option Int) (f p : Nat)
    (st : ScrapeState) (soup : Soup) (antennas : List AntennaRecord)
    (hb : boundHit mp p = false) (hf : fetch p = some soup)
    (hp : parseResults soup.tables = some antennas) (he : antennas.isEmpty = true) :
    scrapeLoop fetch mp (f + 1) p st = some ⟨st.records, st.requests + 1, st.sleeps⟩ := by
  simp [scrapeLoop, hb, hf, hp, he]

lemma scrapeLoop_eq_noNext (fetch : Nat → Option Soup) (mp : Option Int) (f p : Nat)
    (st : ScrapeState) (soup : Soup) (antennas : List AntennaRecord)
    (hb : boundHit mp p = false) (hf : fetch p = some soup)
    (hp : parseResults soup.tables = some antennas) (he : antennas.isEmpty = false)
    (hnx : hasNextPage soup.pagination p = false) :
    scrapeLoop fetch mp (f + 1) p st
      = some ⟨st.records ++ antennas, st.requests + 1, st.sleeps⟩ := by
  simp [scrapeLoop, hb, hf, hp, he, hnx]

lemma scrapeLoop_eq_continue (fetch : Nat → Option Soup) (mp : Option Int) (f p : Nat)
    (st : ScrapeState) (soup : Soup) (antennas : List AntennaRecord)
    (hb : boundHit mp p = false) (hf : fetch p = some soup)
    (hp : parseResults soup.tables = some antennas) (he : antennas.isEmpty = false)
    (hnx : hasNextPage soup.pagination p = true) :
    scrapeLoop fetch mp (f + 1) p st =
      scrapeLoop fetch mp f (p + 1)
        ⟨st.records ++ antennas, st.requests + 1, st.sleeps + 1⟩ := by
  simp [scrapeLoop, hb, hf, hp, he, hnx]

lemma scrapeLoop_requests_le (fetch : Nat → Option Soup) (m : Int) (hm1 : 1 ≤ m) :
    ∀ (fuel pageNum : Nat) (st st' : ScrapeState),
      scrapeLoop fetch (some m) fuel pageNum st = some st' →
      st'.requests ≤ st.requests + (m + 1 - pageNum).toNat
  | 0, pageNum, st, st', h => by simp [scrapeLoop] at h
  | fuel + 1, pageNum, st, st', h => by
    by_cases hb : boundHit (some m) pageNum = true
    · rw [scrapeLoop_eq_bound fetch (some m) fuel pageNum st hb] at h
      obtain rfl := Option.some.inj h
      omega
    · have hb' : boundHit (some m) pageNum = false := by simpa using hb
      have hple : (pageNum : Int) ≤ m := boundHit_false_le m pageNum hm1 hb'
      cases hf2 : fetch pageNum with
      | none =>
        rw [scrapeLoop_eq_fail fetch (some m) fuel pageNum st hb' hf2] at h
        obtain rfl := Option.some.inj h
        have hgoal : st.requests + 1 ≤ st.requests + (m + 1 - pageNum).toNat := by omega
        exact hgoal
      | some soup =>
        obtain ⟨antennas, hp⟩ := Option.isSome_iff_exists.mp (parseResults_isSome soup.tables)
        by_cases he : antennas.isEmpty = true
        · rw [scrapeLoop_eq_empty fetch (some m) fuel pageNum st soup antennas hb' hf2 hp he] at h
          obtain rfl := Option.some.inj h
          have hgoal : st.requests + 1 ≤ st.requests + (m + 1 - pageNum).toNat := by omega
          exact hgoal
        · have he' : antennas.isEmpty = false := by simpa using he
          by_cases hn : hasNextPage soup.pagination pageNum = true
          · rw [scrapeLoop_eq_continue fetch (some m) fuel pageNum st soup antennas
              hb' hf2 hp he' hn] at h
            have ih := scrapeLoop_requests_le fetch m hm1 fuel (pageNum + 1)
              ⟨st.records ++ antennas, st.requests + 1, st.sleeps + 1⟩ st' h
            have ih' : st'.requests ≤ st.requests + 1 + (m + 1 - ((pageNum : Int) + 1)).toNat := ih
            omega
          · have hn' : hasNextPage soup.pagination pageNum = false := by simpa using hn
            rw [scrapeLoop_eq_noNext fetch (some m) fuel pageNum st soup antennas
              hb' hf2 hp he' hn'] at h
            obtain rfl := Option.some.inj h
            have hgoal : st.requests + 1 ≤ st.requests + (m + 1 - pageNum).toNat := by omega
            exact hgoal

lemma scrapeLoop_isSome_of_fuel (fetch : Nat → Option Soup) (m : Int) (hm1 : 1 ≤ m) :
    ∀ (fuel pageNum : Nat) (st : ScrapeState),
      (m + 1 - pageNum).toNat < fuel →
      (scrapeLoop fetch (some m) fuel pageNum st).isSome = true
  | 0, pageNum, st, hfu => by omega
  | fuel + 1, pageNum, st, hfu => by
    by_cases hb : boundHit (some m) pageNum = true
    · rw [scrapeLoop_eq_bound fetch (some m) fuel pageNum st hb]
      rfl
    · have hb' : boundHit (some m) pageNum = false := by simpa using hb
      have hple : (pageNum : Int) ≤ m := boundHit_false_le m pageNum hm1 hb'
      cases hf2 : fetch pageNum with
      | none =>
        rw [scrapeLoop_eq_fail fetch (some m) fuel pageNum st hb' hf2]
        rfl
      | some soup =>
        obtain ⟨antennas, hp⟩ := Option.isSome_iff_exists.mp (parseResults_isSome soup.tables)
        by_cases he : antennas.isEmpty = true
        · rw [scrapeLoop_eq_empty fetch (some m) fuel pageNum st soup antennas hb' hf2 hp he]
          rfl
        · have he' : antennas.isEmpty = false := by simpa using he
          by_cases hn : hasNextPage soup.pagination pageNum = true
          · rw [scrapeLoop_eq_continue fetch (some m) fuel pageNum st soup antennas
              hb' hf2 hp he' hn]
            exact scrapeLoop_isSome_of_fuel fetch m hm1 fuel (pageNum + 1)
              ⟨st.records ++ antennas, st.requests + 1, st.sleeps + 1⟩ (by omega)
          · have hn' : hasNextPage soup.pagination pageNum = false := by simpa using hn
            rw [scrapeLoop_eq_noNext fetch (some m) fuel pageNum st soup antennas
              hb' hf2 hp he' hn']
            rfl

lemma scrapeLoop_steps (fetch : Nat → Option Soup) (mp : Option Int) (S : Nat → Soup)
    (L : Nat → List AntennaRecord) :
    ∀ (count start fuel : Nat) (st : ScrapeState),
      (∀ k, k < start + count → start ≤ k → fetch k = some (S k)) →
      (∀ k, k < start + count → start ≤ k → parseResults (S k).tables = some (L k)) →
      (∀ k, k < start + count → start ≤ k → (L k).isEmpty = false) →
      (∀ k, k < start + count → start ≤ k → hasNextPage (S k).pagination k = true) →
      (∀ k, k < start + count → start ≤ k → boundHit mp k = false) →
      count ≤ fuel →
      scrapeLoop fetch mp fuel start st =
        scrapeLoop fetch mp (fuel - count) (start + count)
          ⟨st.records ++ (((List.range' start count).map L).flatten),
            st.requests + count, st.sleeps + count⟩
  | 0, start, fuel, st, _, _, _, _, _, _ => by simp
  | count + 1, start, fuel, st, hfetch, hparse, hne, hnext, hbound, hfuel => by
    cases fuel with
    | zero => omega
    | succ f =>
      have hklt : start < start + (count + 1) := by omega
      rw [scrapeLoop_eq_continue fetch mp f start st (S start) (L start)
        (hbound start hklt (le_refl start)) (hfetch start hklt (le_refl start))
        (hparse start hklt (le_refl start)) (hne start hklt (le_refl start))
        (hnext start hklt (le_refl start))]
      rw [scrapeLoop_steps fetch mp S L count (start + 1) f
        ⟨st.records ++ L start, st.requests + 1, st.sleeps + 1⟩
        (fun k hk1 hk2 => hfetch k (by omega) (by omega))
        (fun k hk1 hk2 => hparse k (by omega) (by omega))
        (fun k hk1 hk2 => hne k (by omega) (by omega))
        (fun k hk1 hk2 => hnext k (by omega) (by omega))
        (fun k hk1 hk2 => hbound k (by omega) (by omega))
        (by omega)]
      have hrec : ((⟨st.records ++ L start, st.requests + 1, st.sleeps + 1⟩ :
            ScrapeState).records ++ (((List.range' (start + 1) count).map L).flatten))
          = st.records ++ (((List.range' start (count + 1)).map L).flatten) := by
        rw [List.range'_succ]
        simp [List.append_assoc]
      rw [show f - count = f + 1 - (count + 1) from by omega,
        show start + 1 + count = start + (count + 1) from by omega, hrec,
        show (⟨st.records ++ L start, st.requests + 1, st.sleeps + 1⟩ :
            ScrapeState).requests + count = st.requests + (count + 1) from by
          show st.requests + 1 + count = st.requests + (count + 1)
          omega,
        show (⟨st.records ++ L start, st.requests + 1, st.sleeps + 1⟩ :
            ScrapeState).sleeps + count = st.sleeps + (count + 1) from by
          show st.sleeps + 1 + count = st.sleeps + (count + 1)
          omega]

/-- C1, counterexample: with `max_pages = 0` the Python guard
`if max_pages and page_num > max_pages` is never taken (0 is falsy), so a
first page is requested and scraped even though the claim demands at most
0 page requests for m = 0. -/
theorem maxPages_zero_counterexample :
    scrapeAllPages fetchA (some 0) 2 = some ⟨[recA], 1, 0⟩ ∧
    ¬ (ScrapeState.requests ⟨[recA], 1, 0⟩ ≤ 0) :=
  ⟨by decide, by decide⟩

/-- C1, amended: for every bound m ≥ 1, a scrape configured with
`max_pages = m` issues at most m page requests (hence scrapes at most m
pages) whatever the pages contain and whatever the pagination detector
reports, and the loop always terminates within m + 1 iterations of fuel;
m = 0 is excluded: Python truthiness makes it behave as "no bound". -/
theorem maxPages_bound_authoritative_amended (fetch : Nat → Option Soup) (m : Int)
    (hm1 : 1 ≤ m) :
    (∀ (fuel : Nat) (st : ScrapeState),
      scrapeAllPages fetch (some m) fuel = some st → st.requests ≤ m.toNat) ∧
    (∀ fuel : Nat, m.toNat < fuel → (scrapeAllPages fetch (some m) fuel).isSome = true) := by
  constructor
  · intro fuel st h
    have h2 := scrapeLoop_requests_le fetch m hm1 fuel 1 ⟨[], 0, 0⟩ st h
    have h3 : st.requests ≤ 0 + (m + 1 - ((1 : Nat) : Int)).toNat := h2
    omega
  · intro fuel hf
    exact scrapeLoop_isSome_of_fuel fetch m hm1 fuel 1 ⟨[], 0, 0⟩ (by omega)

/-- Witness for C1 (amended), at m = 2 on a server that always answers. -/
theorem maxPages_bound_authoritative_amended_witness :
    (1 : Int) ≤ 2 ∧ (2 : Int).toNat < 5 ∧
      (scrapeAllPages fetchA (some 2) 5).isSome = true :=
  ⟨by decide, by decide,
    (maxPages_bound_authoritative_amended fetchA 2 (by decide)).2 5 (by decide)⟩

/-- C7: if pages 1..n-1 each yield records and advertise a next page, and
page n (n ≥ 1) yields zero records, the scrape stops at page n and
returns exactly the records of pages 1..n-1 concatenated in page order
then row order, with n requests issued in total; for n = 1 this is the
empty-first-page short-circuit: empty result, single request. -/
theorem empty_page_terminates (fetch : Nat → Option Soup) (mp : Option Int)
    (S : Nat → Soup) (L : Nat → List AntennaRecord) (n : Nat) (hn : 1 ≤ n)
    (hfetch : ∀ k, k < n → 1 ≤ k → fetch k = some (S k))
    (hfetchn : fetch n = some (S n))
    (hparse : ∀ k, k < n → 1 ≤ k → parseResults (S k).tables = some (L k))
    (hparsen : parseResults (S n).tables = some [])
    (hne : ∀ k, k < n → 1 ≤ k → (L k).isEmpty = false)
    (hnext : ∀ k, k < n → 1 ≤ k → hasNextPage (S k).pagination k = true)
    (hbound : ∀ k, k ≤ n → 1 ≤ k → boundHit mp k = false)
    (fuel : Nat) (hfuel : n ≤ fuel) :
    scrapeAllPages fetch mp fuel
      = some ⟨(((List.range' 1 (n - 1)).map L).flatten), n, n - 1⟩ := by
  obtain ⟨c, rfl⟩ : ∃ c, n = c + 1 := ⟨n - 1, by omega⟩
  show scrapeLoop fetch mp fuel 1 ⟨[], 0, 0⟩ = _
  rw [scrapeLoop_steps fetch mp S L c 1 fuel ⟨[], 0, 0⟩
    (fun k h1 h2 => hfetch k (by omega) h2)
    (fun k h1 h2 => hparse k (by omega) h2)
    (fun k h1 h2 => hne k (by omega) h2)
    (fun k h1 h2 => hnext k (by omega) h2)
    (fun k h1 h2 => hbound k (by omega) h2)
    (by omega)]
  obtain ⟨f2, hf2⟩ : ∃ f2, fuel - c = f2 + 1 := ⟨fuel - c - 1, by omega⟩
  rw [hf2, show 1 + c = c + 1 from by omega]
  rw [scrapeLoop_eq_empty fetch mp f2 (c + 1) _ (S (c + 1)) []
    (hbound (c + 1) (le_refl _) (by omega)) hfetchn hparsen rfl]
  simp

/-- Witness for C7: a two-page scrape whose second page is empty. -/
theorem empty_page_terminates_witness :
    scrapeAllPages fetchB none 5 = some ⟨[recA], 2, 1⟩ :=
  empty_page_terminates fetchB none soupsB recsB 2 (by decide) (by decide) (by decide)
    (by decide) (by decide) (by decide) (by decide) (by decide) 5 (by decide)

/-- C8, counterexample: a one-page scrape (records found, detector says no
next page) performs one loop iteration after which no further page request
is made, yet sleeps ZERO times — the code breaks out of the loop before
reaching `time.sleep(1)`, so the politeness delay is not unconditional. -/
theorem politeness_delay_counterexample :
    scrapeAllPages fetchA none 3 = some ⟨[recA], 1, 0⟩ ∧
    ScrapeState.sleeps ⟨[recA], 1, 0⟩ = 0 :=
  ⟨by decide, rfl⟩

/-- C8, amended: the politeness delay is conditional, not unconditional:
it runs exactly after the iterations whose pagination-detector answer is
"next page exists" (just before the next request), so a scrape of n pages
that ends because the detector answers no on page n sleeps exactly n - 1
times — no delay in the final iteration. -/
theorem politeness_delay_conditional (fetch : Nat → Option Soup) (mp : Option Int)
    (S : Nat → Soup) (L : Nat → List AntennaRecord) (n : Nat) (hn : 1 ≤ n)
    (hfetch : ∀ k, k < n → 1 ≤ k → fetch k = some (S k))
    (hfetchn : fetch n = some (S n))
    (hparse : ∀ k, k < n → 1 ≤ k → parseResults (S k).tables = some (L k))
    (hparsen : parseResults (S n).tables = some (L n))
    (hnen : (L n).isEmpty = false)
    (hne : ∀ k, k < n → 1 ≤ k → (L k).isEmpty = false)
    (hnext : ∀ k, k < n → 1 ≤ k → hasNextPage (S k).pagination k = true)
    (hnextn : hasNextPage (S n).pagination n = false)
    (hbound : ∀ k, k ≤ n → 1 ≤ k → boundHit mp k = false)
    (fuel : Nat) (hfuel : n ≤ fuel) :
    scrapeAllPages fetch mp fuel
      = some ⟨(((List.range' 1 n).map L).flatten), n, n - 1⟩ := by
  obtain ⟨c, rfl⟩ : ∃ c, n = c + 1 := ⟨n - 1, by omega⟩
  show scrapeLoop fetch mp fuel 1 ⟨[], 0, 0⟩ = _
  rw [scrapeLoop_steps fetch mp S L c 1 fuel ⟨[], 0, 0⟩
    (fun k h1 h2 => hfetch k (by omega) h2)
    (fun k h1 h2 => hparse k (by omega) h2)
    (fun k h1 h2 => hne k (by omega) h2)
    (fun k h1 h2 => hnext k (by omega) h2)
    (fun k h1 h2 => hbound k (by omega) h2)
    (by omega)]
  obtain ⟨f2, hf2⟩ : ∃ f2, fuel - c = f2 + 1 := ⟨fuel - c - 1, by omega⟩
  rw [hf2, show 1 + c = c + 1 from by omega]
  rw [scrapeLoop_eq_noNext fetch mp f2 (c + 1) _ (S (c + 1)) (L (c + 1))
    (hbound (c + 1) (le_refl _) (by omega)) hfetchn hparsen hnen hnextn]
  have hconcat : List.range' 1 (c + 1) = List.range' 1 c ++ [c + 1] := by
    have h := (List.range'_concat 1 c :
      List.range' 1 (c + 1) 1 = List.range' 1 c 1 ++ [1 + 1 * c])
    simpa [Nat.add_comm] using h
  rw [hconcat]
  simp [List.append_assoc]

/-- Witness for C8 (amended): two pages, detector answers no on page 2,
exactly one delay (between the two requests), none after page 2. -/
theorem politeness_delay_conditional_witness :
    scrapeAllPages fetchD none 5 = some ⟨[recA, recA], 2, 1⟩ :=
  politeness_delay_conditional fetchD none soupsD recsD 2 (by decide) (by decide)
    (by decide) (by decide) (by decide) (by decide) (by decide) (by decide) (by decide)
    (by decide) 5 (by decide)

/-- C9: a transport failure (connection error or HTTP error status, both
caught inside `_make_search_request` and returned as `None`) on page n
stops pagination and returns, rather than raising, exactly the records
accumulated from pages 1..n-1: a bad page never discards partial data and
the scrape's entry point never propagates the exception. -/
theorem transport_error_partial_results (fetch : Nat → Option Soup) (mp : Option Int)
    (S : Nat → Soup) (L : Nat → List AntennaRecord) (n : Nat) (hn : 1 ≤ n)
    (hfetch : ∀ k, k < n → 1 ≤ k → fetch k = some (S k))
    (hfailn : fetch n = none)
    (hparse : ∀ k, k < n → 1 ≤ k → parseResults (S k).tables = some (L k))
    (hne : ∀ k, k < n → 1 ≤ k → (L k).isEmpty = false)
    (hnext : ∀ k, k < n → 1 ≤ k → hasNextPage (S k).pagination k = true)
    (hbound : ∀ k, k ≤ n → 1 ≤ k → boundHit mp k = false)
    (fuel : Nat) (hfuel : n ≤ fuel) :
    scrapeAllPages fetch mp fuel
      = some ⟨(((List.range' 1 (n - 1)).map L).flatten), n, n - 1⟩ := by
  obtain ⟨c, rfl⟩ : ∃ c, n = c + 1 := ⟨n - 1, by omega⟩
  show scrapeLoop fetch mp fuel 1 ⟨[], 0, 0⟩ = _
  rw [scrapeLoop_steps fetch mp S L c 1 fuel ⟨[], 0, 0⟩
    (fun k h1 h2 => hfetch k (by omega) h2)
    (fun k h1 h2 => hparse k (by omega) h2)
    (fun k h1 h2 => hne k (by omega) h2)
    (fun k h1 h2 => hnext k (by omega) h2)
    (fun k h1 h2 => hbound k (by omega) h2)
    (by omega)]
  obtain ⟨f2, hf2⟩ : ∃ f2, fuel - c = f2 + 1 := ⟨fuel - c - 1, by omega⟩
  rw [hf2, show 1 + c = c + 1 from by omega]
  rw [scrapeLoop_eq_fail fetch mp f2 (c + 1) _
    (hbound (c + 1) (le_refl _) (by omega)) hfailn]
  simp

/-- Witness for C9: the second page's request fails; the scrape still
returns the first page's records. -/
theorem transport_error_partial_results_witness :
    scrapeAllPages fetchC none 5 = some ⟨[recA], 2, 1⟩ :=
  transport_error_partial_results fetchC none soupsB recsB 2 (by decide) (by decide)
    (by decide) (by decide) (by decide) (by decide) (by decide) 5 (by decide)
